import Mathlib

/-!
Shallow embedding of `src/core/util/next-tick.ts`: the deferred-callback
batching scheduler (`nextTick` / `flushCallbacks`), the timer-strategy
selection that runs at module initialization, and the `isUsingMicroTask`
flag.

Modelling conventions:
* The module-level mutable variables `callbacks` and `pending` become
  fields of an explicit `SchedState`, threaded through every operation.
* Observable effects (invoking timerFunc, invoking a user callback,
  `handleError(e, ctx, 'nextTick')`, resolving the returned promise) are
  recorded in an append-only event log.
* A user callback is not an arbitrary function (that would not terminate in
  a shallow embedding) but a finite syntax `CbBody` of the behaviours the
  claims need: finish normally, throw, or call `nextTick` again (with a
  callback or in promise mode) and continue.
* JS `undefined` context values are `Option Nat` with `none` for undefined;
  errors are `Nat`; promise identities are `Nat` drawn from a counter
  (`new Promise` in the source creates a fresh promise whose resolver the
  pushed closure captures; since the flush can only run after `nextTick`
  returns, storing the fresh id in the task at push time is faithful).
-/

namespace NextTick

/-- Syntax of callback behaviours. `tickCb label body ctx rest` models a
callback that calls `nextTick(cb, ctx)` (where `cb` is a callback labelled
`label` with behaviour `body`) and then continues as `rest`;
`tickPromise ctx rest` models calling `nextTick(undefined, ctx)` and
continuing; `throwErr e` models throwing exception `e`. -/
inductive CbBody where
  | done : CbBody
  | throwErr : Nat → CbBody
  | tickCb : Nat → CbBody → Option Nat → CbBody → CbBody
  | tickPromise : Option Nat → CbBody → CbBody
deriving DecidableEq, Repr

/-- A user callback passed to `nextTick`: an observable label (standing for
the function's identity) and its behaviour. -/
structure Cb where
  label : Nat
  body : CbBody
deriving DecidableEq, Repr

/-- The closure pushed onto `callbacks` by `nextTick` captures the optional
callback `cb`, the optional context `ctx`, and `_resolve` (the resolver of
the returned promise, present iff no callback was given and the host has a
`Promise`); `resolveId` is the identity of that promise. -/
structure Task where
  cb : Option Cb
  ctx : Option Nat
  resolveId : Option Nat
deriving DecidableEq, Repr

/-- Observable events: `trigger` = an invocation of `timerFunc`;
`invoke l` = the callback labelled `l` is called (`cb.call(ctx)` entered);
`errorReported e ctx tag` = `handleError(e, ctx, tag)`;
`resolved id ctx` = the promise `id` is resolved with value `ctx`. -/
inductive Event where
  | trigger : Event
  | invoke : Nat → Event
  | errorReported : Nat → Option Nat → String → Event
  | resolved : Nat → Option Nat → Event
deriving DecidableEq, Repr

/-- The module-level mutable state of `next-tick.ts`, plus the event log and
the fresh-promise counter. -/
structure SchedState where
  callbacks : List Task
  pending : Bool
  nextPromiseId : Nat
  log : List Event
deriving DecidableEq, Repr

/-- Host capabilities that `nextTick` itself consults at call time:
`promiseDefined` models `typeof Promise !== 'undefined'`. -/
structure Host where
  promiseDefined : Bool
deriving DecidableEq, Repr

/-- Append an observable event to the log. -/
def logEvent (e : Event) (s : SchedState) : SchedState :=
  { s with log := s.log ++ [e] }

/-- `nextTick(cb?, ctx?)`: pushes the closure onto `callbacks`; if not
`pending`, sets `pending` and invokes `timerFunc`; if no callback was given
and `Promise` is defined, returns a fresh promise whose resolver the pushed
closure captured. Returns the new state and the returned promise id
(`none` models returning `undefined`). -/
def nextTick (host : Host) (cb : Option Cb) (ctx : Option Nat)
    (s : SchedState) : SchedState × Option Nat :=
  let res : Option Nat :=
    if cb.isNone && host.promiseDefined then some s.nextPromiseId else none
  let s1 := { s with callbacks := s.callbacks ++ [⟨cb, ctx, res⟩] }
  let s2 := if s1.pending then s1 else logEvent .trigger { s1 with pending := true }
  match res with
  | some id => ({ s2 with nextPromiseId := s2.nextPromiseId + 1 }, some id)
  | none => (s2, none)

/-- Run a callback body. Returns the new state and `some e` when the body
terminates by throwing `e` (the exception escaping `cb.call(ctx)`). Nested
`nextTick` calls only enqueue; they run nothing. -/
def runBody (host : Host) : CbBody → SchedState → SchedState × Option Nat
  | .done, s => (s, none)
  | .throwErr e, s => (s, some e)
  | .tickCb l b c rest, s => runBody host rest (nextTick host (some ⟨l, b⟩) c s).1
  | .tickPromise c rest, s => runBody host rest (nextTick host none c s).1

/-- Run one queued task: the closure pushed by `nextTick` —
`if (cb) { try { cb.call(ctx) } catch (e) { handleError(e, ctx, 'nextTick') } }
else if (_resolve) { _resolve(ctx) }`. -/
def runTask (host : Host) (t : Task) (s : SchedState) : SchedState :=
  match t.cb with
  | some c =>
    let s1 := logEvent (.invoke c.label) s
    match runBody host c.body s1 with
    | (s2, none) => s2
    | (s2, some e) => logEvent (.errorReported e t.ctx "nextTick") s2
  | none =>
    match t.resolveId with
    | some id => logEvent (.resolved id t.ctx) s
    | none => s

/-- The `for` loop of `flushCallbacks`: invoke each snapshotted task in
order, one after another. -/
def runTasks (host : Host) : List Task → SchedState → SchedState
  | [], s => s
  | t :: ts, s => runTasks host ts (runTask host t s)

/-- `flushCallbacks()`: `pending = false`; `copies = callbacks.slice(0)`;
`callbacks.length = 0`; then invoke each copy in order. -/
def flushCallbacks (host : Host) (s : SchedState) : SchedState :=
  let s1 := { s with pending := false }
  let copies := s1.callbacks
  let s2 := { s1 with callbacks := [] }
  runTasks host copies s2

/-- A synchronous turn: a sequence of `nextTick(cb?, ctx?)` calls executed
back to back (return values discarded). -/
def runTurn (host : Host) : List (Option Cb × Option Nat) → SchedState → SchedState
  | [], s => s
  | c :: rest, s => runTurn host rest (nextTick host c.1 c.2 s).1

/-- Any operation the outside world can perform on the scheduler: a
`nextTick` call or a host-driven flush. -/
inductive Op where
  | tickOp : Option Cb → Option Nat → Op
  | flushOp : Op
deriving DecidableEq, Repr

/-- Run one outside-world operation. -/
def runOp (host : Host) : Op → SchedState → SchedState
  | .tickOp cb ctx, s => (nextTick host cb ctx s).1
  | .flushOp, s => flushCallbacks host s

/-- Run a sequence of outside-world operations. -/
def runOps (host : Host) : List Op → SchedState → SchedState
  | [], s => s
  | o :: rest, s => runOps host rest (runOp host o s)

/-- The labels of the callback-invocation events of a log, in order. -/
def invokes (log : List Event) : List Nat :=
  log.filterMap fun e => match e with | .invoke l => some l | _ => none

/-- Number of `timerFunc` invocations recorded in a log. -/
def countTrigger (log : List Event) : Nat :=
  (log.filter fun e => e = .trigger).length

/-- The `handleError` reports recorded in a log, in order. -/
def reports (log : List Event) : List (Nat × Option Nat × String) :=
  log.filterMap fun e =>
    match e with | .errorReported n c t => some (n, c, t) | _ => none

/-- The promise resolutions recorded in a log, in order. -/
def resolutions (log : List Event) : List (Nat × Option Nat) :=
  log.filterMap fun e =>
    match e with | .resolved id c => some (id, c) | _ => none

/-- The labels of the callback-bearing tasks of a queue, in order (promise
tasks have no label). -/
def labelsOf (ts : List Task) : List Nat :=
  ts.filterMap fun t => t.cb.map Cb.label

/-- The labels of the callbacks passed in a turn, in call order. -/
def turnLabels (calls : List (Option Cb × Option Nat)) : List Nat :=
  calls.filterMap fun c => c.1.map Cb.label

/-- Whether a callback body terminates by throwing, and with which
exception; independent of scheduler state. -/
def bodyThrows : CbBody → Option Nat
  | .done => none
  | .throwErr e => some e
  | .tickCb _ _ _ rest => bodyThrows rest
  | .tickPromise _ rest => bodyThrows rest

/-- Environment facts probed once at module load by the `if/else if` chain
that assigns `timerFunc`. -/
structure Env where
  promiseDefined : Bool
  promiseNative : Bool
  isIE : Bool
  mutationObserverDefined : Bool
  mutationObserverNative : Bool
  mutationObserverStub : Bool
  setImmediateDefined : Bool
  setImmediateNative : Bool
deriving DecidableEq, Repr

/-- The four possible bindings of `timerFunc`. -/
inductive TimerStrategy where
  | promiseTimer : TimerStrategy
  | mutationObserverTimer : TimerStrategy
  | setImmediateTimer : TimerStrategy
  | setTimeoutTimer : TimerStrategy
deriving DecidableEq, Repr

/-- Module initialization: `isUsingMicroTask` starts `false`; the `if/else`
chain picks `timerFunc` in order — native `Promise`, then
`MutationObserver` (not on IE, native or the PhantomJS/iOS-7 stub whose
`toString()` is `[object MutationObserverConstructor]`), then native
`setImmediate`, then `setTimeout(flushCallbacks, 0)` — setting
`isUsingMicroTask` to `true` in the first two branches. Returns the chosen
strategy and the final `isUsingMicroTask` value. -/
def initTimer (env : Env) : TimerStrategy × Bool :=
  if env.promiseDefined && env.promiseNative then
    (.promiseTimer, true)
  else if !env.isIE && env.mutationObserverDefined
      && (env.mutationObserverNative || env.mutationObserverStub) then
    (.mutationObserverTimer, true)
  else if env.setImmediateDefined && env.setImmediateNative then
    (.setImmediateTimer, false)
  else
    (.setTimeoutTimer, false)

/-- The chosen `timerFunc` binding. -/
def timerFunc (env : Env) : TimerStrategy := (initTimer env).1

/-- The published `isUsingMicroTask` flag. -/
def isUsingMicroTask (env : Env) : Bool := (initTimer env).2

/-- The `setTimeout` fallback passes delay `0`; the other strategies use no
timer delay. -/
def timerDelay : TimerStrategy → Option Nat
  | .setTimeoutTimer => some 0
  | _ => none

/-- The error report a task produces when run: one report, with the task's
context and the origin tag `nextTick`, exactly when its callback body
throws. -/
def taskReports (t : Task) : List (Nat × Option Nat × String) :=
  match t.cb with
  | some c =>
    match bodyThrows c.body with
    | some e => [(e, t.ctx, "nextTick")]
    | none => []
  | none => []

/-- The promise resolution a task produces when run: its promise resolved
with the task's context, exactly when it is a promise-mode task. -/
def taskResolutions (t : Task) : List (Nat × Option Nat) :=
  match t.cb with
  | some _ => []
  | none =>
    match t.resolveId with
    | some id => [(id, t.ctx)]
    | none => []

/-- Reports produced by a list of tasks, in order. -/
def tasksReports : List Task → List (Nat × Option Nat × String)
  | [] => []
  | t :: ts => taskReports t ++ tasksReports ts

/-- Resolutions produced by a list of tasks, in order. -/
def tasksResolutions : List Task → List (Nat × Option Nat)
  | [] => []
  | t :: ts => taskResolutions t ++ tasksResolutions ts

/-- Invariant relating the pending flag, the queue and the number of
`timerFunc` invocations since a base point. -/
def flushInv (base : Nat) (s : SchedState) : Prop :=
  s.pending = !s.callbacks.isEmpty ∧
    countTrigger s.log = base + (if s.pending then 1 else 0)

/-! ### Concrete demonstration values -/

/-- A host with a `Promise` primitive. -/
def hostP : Host := ⟨true⟩

/-- A host without any `Promise` primitive. -/
def hostNoP : Host := ⟨false⟩

/-- The pristine module state: empty queue, flag down, empty log. -/
def s0 : SchedState := ⟨[], false, 0, []⟩

/-- A callback that just returns. -/
def fnA : Cb := ⟨1, .done⟩

/-- Another callback that just returns. -/
def fnB : Cb := ⟨2, .done⟩

/-- A callback scheduled from a later turn. -/
def fnD : Cb := ⟨4, .done⟩

/-- A callback that itself calls `nextTick(fnC)` (where `fnC` is labelled 3)
during its own execution. -/
def fnReentrant : Cb := ⟨5, .tickCb 3 .done none .done⟩

/-- A callback that throws exception 9. -/
def fnThrow : Cb := ⟨6, .throwErr 9⟩

/-! ### Basic characterizations -/

/-- Full characterization of the state after a `nextTick` call. -/
lemma nextTick_fst (host : Host) (cb : Option Cb) (ctx : Option Nat) (s : SchedState) :
    (nextTick host cb ctx s).1 =
      { callbacks := s.callbacks ++
          [⟨cb, ctx, if cb.isNone && host.promiseDefined then some s.nextPromiseId else none⟩]
        pending := true
        nextPromiseId := s.nextPromiseId + (if cb.isNone && host.promiseDefined then 1 else 0)
        log := s.log ++ (if s.pending then [] else [Event.trigger]) } := by
  cases hc : (cb.isNone && host.promiseDefined) <;> cases hp : s.pending <;>
    simp [nextTick, logEvent, hc, hp]

/-- The value returned by `nextTick`: a fresh promise exactly when no
callback was given and the host has `Promise`. -/
lemma nextTick_snd (host : Host) (cb : Option Cb) (ctx : Option Nat) (s : SchedState) :
    (nextTick host cb ctx s).2 =
      (if cb.isNone && host.promiseDefined then some s.nextPromiseId else none) := by
  cases hc : (cb.isNone && host.promiseDefined) <;> cases hp : s.pending <;>
    simp [nextTick, logEvent, hc, hp]

lemma invokes_append (l1 l2 : List Event) :
    invokes (l1 ++ l2) = invokes l1 ++ invokes l2 := by
  simp [invokes]

lemma countTrigger_append (l1 l2 : List Event) :
    countTrigger (l1 ++ l2) = countTrigger l1 + countTrigger l2 := by
  simp [countTrigger]

lemma reports_append (l1 l2 : List Event) :
    reports (l1 ++ l2) = reports l1 ++ reports l2 := by
  simp [reports]

lemma resolutions_append (l1 l2 : List Event) :
    resolutions (l1 ++ l2) = resolutions l1 ++ resolutions l2 := by
  simp [resolutions]

lemma labelsOf_append (t1 t2 : List Task) :
    labelsOf (t1 ++ t2) = labelsOf t1 ++ labelsOf t2 := by
  simp [labelsOf]

/-! ### Purity of `runBody`: nested `nextTick` calls only enqueue and
possibly invoke the timer; they invoke no callback, report no error and
resolve no promise. -/

lemma runBody_snd (host : Host) (b : CbBody) :
    ∀ s, (runBody host b s).2 = bodyThrows b := by
  induction b with
  | done => intro s; rfl
  | throwErr e => intro s; rfl
  | tickCb l bb c rest ih1 ih2 => intro s; simpa [runBody, bodyThrows] using ih2 _
  | tickPromise c rest ih => intro s; simpa [runBody, bodyThrows] using ih _

lemma runBody_log (host : Host) (b : CbBody) :
    ∀ s, ∃ tail, (runBody host b s).1.log = s.log ++ tail ∧
      invokes tail = [] ∧ reports tail = [] ∧ resolutions tail = [] := by
  induction b with
  | done => intro s; exact ⟨[], by simp [runBody], rfl, rfl, rfl⟩
  | throwErr e => intro s; exact ⟨[], by simp [runBody], rfl, rfl, rfl⟩
  | tickCb l bb c rest ih1 ih2 =>
    intro s
    obtain ⟨tail, h1, h2, h3, h4⟩ := ih2 (nextTick host (some ⟨l, bb⟩) c s).1
    refine ⟨(if s.pending then [] else [Event.trigger]) ++ tail, ?_, ?_, ?_, ?_⟩
    · simp only [runBody]
      rw [h1, nextTick_fst]
      simp
    · cases hp : s.pending <;> simp_all [invokes_append, invokes]
    · cases hp : s.pending <;> simp_all [reports_append, reports]
    · cases hp : s.pending <;> simp_all [resolutions_append, resolutions]
  | tickPromise c rest ih =>
    intro s
    obtain ⟨tail, h1, h2, h3, h4⟩ := ih (nextTick host none c s).1
    refine ⟨(if s.pending then [] else [Event.trigger]) ++ tail, ?_, ?_, ?_, ?_⟩
    · simp only [runBody]
      rw [h1, nextTick_fst]
      simp
    · cases hp : s.pending <;> simp_all [invokes_append, invokes]
    · cases hp : s.pending <;> simp_all [reports_append, reports]
    · cases hp : s.pending <;> simp_all [resolutions_append, resolutions]

/-! ### Observations of one task and of the task loop -/

lemma runTask_invokes (host : Host) (t : Task) (s : SchedState) :
    invokes (runTask host t s).log = invokes s.log ++ labelsOf [t] := by
  match ht : t.cb with
  | some c =>
    obtain ⟨tail, h1, h2, h3, h4⟩ := runBody_log host c.body (logEvent (.invoke c.label) s)
    simp only [runTask, ht]
    cases hb : runBody host c.body (logEvent (.invoke c.label) s) with
    | mk s2 r =>
      have hlog : s2.log = s.log ++ [Event.invoke c.label] ++ tail := by
        have := h1; rw [hb] at this; simpa [logEvent] using this
      cases r with
      | none =>
        rw [hlog, invokes_append, invokes_append, h2]
        simp [invokes, labelsOf, ht]
      | some e =>
        simp only [logEvent]
        rw [hlog]
        rw [List.append_assoc, List.append_assoc, invokes_append, invokes_append,
          invokes_append, h2]
        simp [invokes, labelsOf, ht]
  | none =>
    cases hr : t.resolveId <;>
      simp [runTask, ht, hr, logEvent, invokes_append, invokes, labelsOf]

lemma runTask_reports (host : Host) (t : Task) (s : SchedState) :
    reports (runTask host t s).log = reports s.log ++ taskReports t := by
  match ht : t.cb with
  | some c =>
    obtain ⟨tail, h1, h2, h3, h4⟩ := runBody_log host c.body (logEvent (.invoke c.label) s)
    have hrb := runBody_snd host c.body (logEvent (.invoke c.label) s)
    simp only [runTask, ht]
    cases hb : runBody host c.body (logEvent (.invoke c.label) s) with
    | mk s2 r =>
      have hlog : s2.log = s.log ++ [Event.invoke c.label] ++ tail := by
        have := h1; rw [hb] at this; simpa [logEvent] using this
      have hthr : r = bodyThrows c.body := by rw [hb] at hrb; exact hrb
      cases r with
      | none =>
        rw [hlog, reports_append, reports_append, h3]
        simp [reports, taskReports, ht, ← hthr]
      | some e =>
        simp only [logEvent]
        rw [hlog]
        rw [List.append_assoc, List.append_assoc, reports_append, reports_append,
          reports_append, h3]
        simp [reports, taskReports, ht, ← hthr]
  | none =>
    cases hr : t.resolveId <;>
      simp [runTask, ht, hr, logEvent, reports_append, reports, taskReports]

lemma runTask_resolutions (host : Host) (t : Task) (s : SchedState) :
    resolutions (runTask host t s).log = resolutions s.log ++ taskResolutions t := by
  match ht : t.cb with
  | some c =>
    obtain ⟨tail, h1, h2, h3, h4⟩ := runBody_log host c.body (logEvent (.invoke c.label) s)
    simp only [runTask, ht]
    cases hb : runBody host c.body (logEvent (.invoke c.label) s) with
    | mk s2 r =>
      have hlog : s2.log = s.log ++ [Event.invoke c.label] ++ tail := by
        have := h1; rw [hb] at this; simpa [logEvent] using this
      cases r with
      | none =>
        rw [hlog, resolutions_append, resolutions_append, h4]
        simp [resolutions, taskResolutions, ht]
      | some e =>
        simp only [logEvent]
        rw [hlog]
        rw [List.append_assoc, List.append_assoc, resolutions_append, resolutions_append,
          resolutions_append, h4]
        simp [resolutions, taskResolutions, ht]
  | none =>
    cases hr : t.resolveId <;>
      simp [runTask, ht, hr, logEvent, resolutions_append, resolutions, taskResolutions]

lemma runTasks_invokes (host : Host) (ts : List Task) :
    ∀ s, invokes (runTasks host ts s).log = invokes s.log ++ labelsOf ts := by
  induction ts with
  | nil => intro s; simp [runTasks, labelsOf]
  | cons t ts ih =>
    intro s
    have h1 := runTask_invokes host t s
    have h2 : labelsOf (t :: ts) = labelsOf [t] ++ labelsOf ts := labelsOf_append [t] ts
    simp [runTasks, ih, h1, h2]

lemma runTasks_reports (host : Host) (ts : List Task) :
    ∀ s, reports (runTasks host ts s).log = reports s.log ++ tasksReports ts := by
  induction ts with
  | nil => intro s; simp [runTasks, tasksReports]
  | cons t ts ih =>
    intro s
    simp [runTasks, ih, runTask_reports, tasksReports]

lemma runTasks_resolutions (host : Host) (ts : List Task) :
    ∀ s, resolutions (runTasks host ts s).log = resolutions s.log ++ tasksResolutions ts := by
  induction ts with
  | nil => intro s; simp [runTasks, tasksResolutions]
  | cons t ts ih =>
    intro s
    simp [runTasks, ih, runTask_resolutions, tasksResolutions]

/-- Unfolding of `flushCallbacks` to its snapshot/clear/loop form. -/
lemma flushCallbacks_eq (host : Host) (s : SchedState) :
    flushCallbacks host s =
      runTasks host s.callbacks { s with pending := false, callbacks := [] } := rfl

lemma flush_invokes (host : Host) (s : SchedState) :
    invokes (flushCallbacks host s).log = invokes s.log ++ labelsOf s.callbacks := by
  rw [flushCallbacks_eq, runTasks_invokes]

lemma flush_reports (host : Host) (s : SchedState) :
    reports (flushCallbacks host s).log = reports s.log ++ tasksReports s.callbacks := by
  rw [flushCallbacks_eq, runTasks_reports]

lemma flush_resolutions (host : Host) (s : SchedState) :
    resolutions (flushCallbacks host s).log
      = resolutions s.log ++ tasksResolutions s.callbacks := by
  rw [flushCallbacks_eq, runTasks_resolutions]

/-! ### The batching invariant inside a flush

From the state `flushCallbacks` reaches right after clearing the queue
(`pending = false`, `callbacks = []`), every subsequent `nextTick` keeps the
pending flag equal to queue-nonemptiness and the trigger count equal to the
base count plus one exactly when the flag is set. -/

lemma flushInv_nextTick (host : Host) (cb : Option Cb) (ctx : Option Nat)
    (base : Nat) (s : SchedState) (h : flushInv base s) :
    flushInv base (nextTick host cb ctx s).1 := by
  obtain ⟨h1, h2⟩ := h
  rw [flushInv, nextTick_fst]
  constructor
  · simp
  · have htrig : countTrigger [Event.trigger] = 1 := rfl
    cases hp : s.pending with
    | false =>
      have h2' : countTrigger s.log = base := by rw [hp] at h2; simpa using h2
      simp [hp, countTrigger_append, h2', htrig]
    | true =>
      have h2' : countTrigger s.log = base + 1 := by rw [hp] at h2; simpa using h2
      simp [hp, countTrigger_append, h2']

lemma flushInv_logEvent (e : Event) (base : Nat) (s : SchedState)
    (hne : e ≠ Event.trigger) (h : flushInv base s) :
    flushInv base (logEvent e s) := by
  obtain ⟨h1, h2⟩ := h
  refine ⟨h1, ?_⟩
  simp only [logEvent, countTrigger_append]
  have : countTrigger [e] = 0 := by
    simp [countTrigger, List.filter, hne]
  simp [this, h2]

lemma flushInv_runBody (host : Host) (b : CbBody) :
    ∀ base s, flushInv base s → flushInv base (runBody host b s).1 := by
  induction b with
  | done => intro base s h; exact h
  | throwErr e => intro base s h; exact h
  | tickCb l bb c rest ih1 ih2 =>
    intro base s h
    exact ih2 base _ (flushInv_nextTick host (some ⟨l, bb⟩) c base s h)
  | tickPromise c rest ih =>
    intro base s h
    exact ih base _ (flushInv_nextTick host none c base s h)

lemma flushInv_runTask (host : Host) (t : Task) (base : Nat) (s : SchedState)
    (h : flushInv base s) : flushInv base (runTask host t s) := by
  match ht : t.cb with
  | some c =>
    simp only [runTask, ht]
    have h1 : flushInv base (logEvent (.invoke c.label) s) :=
      flushInv_logEvent _ base s (by simp) h
    have h2 := flushInv_runBody host c.body base _ h1
    cases hb : runBody host c.body (logEvent (.invoke c.label) s) with
    | mk s2 r =>
      rw [hb] at h2
      cases r with
      | none => exact h2
      | some e => exact flushInv_logEvent _ base s2 (by simp) h2
  | none =>
    cases hr : t.resolveId with
    | some id =>
      simp only [runTask, ht, hr]
      exact flushInv_logEvent _ base s (by simp) h
    | none => simpa [runTask, ht, hr] using h

lemma flushInv_runTasks (host : Host) (ts : List Task) :
    ∀ base s, flushInv base s → flushInv base (runTasks host ts s) := by
  induction ts with
  | nil => intro base s h; exact h
  | cons t ts ih =>
    intro base s h
    exact ih base _ (flushInv_runTask host t base s h)

/-- After a flush: the pending flag is set iff tasks were enqueued during
the flush, and `timerFunc` was invoked during the flush exactly once if any
task was enqueued during it, otherwise not at all. -/
lemma flush_flushInv (host : Host) (s : SchedState) :
    (flushCallbacks host s).pending = !(flushCallbacks host s).callbacks.isEmpty ∧
      countTrigger (flushCallbacks host s).log =
        countTrigger s.log +
          (if (flushCallbacks host s).callbacks.isEmpty then 0 else 1) := by
  have hmid : flushInv (countTrigger s.log)
      { s with pending := false, callbacks := [] } := by
    constructor <;> simp
  have h := flushInv_runTasks host s.callbacks (countTrigger s.log) _ hmid
  rw [← flushCallbacks_eq] at h
  obtain ⟨h1, h2⟩ := h
  refine ⟨h1, ?_⟩
  rw [h2, h1]
  cases he : (flushCallbacks host s).callbacks.isEmpty <;> simp [he]

/-! ### The log is append-only -/

lemma runBody_log_ext (host : Host) (b : CbBody) (s : SchedState) :
    ∃ tail, (runBody host b s).1.log = s.log ++ tail := by
  obtain ⟨tail, h, -, -, -⟩ := runBody_log host b s
  exact ⟨tail, h⟩

lemma runTask_log_ext (host : Host) (t : Task) (s : SchedState) :
    ∃ tail, (runTask host t s).log = s.log ++ tail := by
  match ht : t.cb with
  | some c =>
    obtain ⟨tail, h⟩ := runBody_log_ext host c.body (logEvent (.invoke c.label) s)
    simp only [runTask, ht]
    cases hb : runBody host c.body (logEvent (.invoke c.label) s) with
    | mk s2 r =>
      have hlog : s2.log = s.log ++ ([Event.invoke c.label] ++ tail) := by
        have := h; rw [hb] at this; simpa [logEvent, List.append_assoc] using this
      cases r with
      | none => exact ⟨_, hlog⟩
      | some e =>
        refine ⟨[Event.invoke c.label] ++ tail ++ [Event.errorReported e t.ctx "nextTick"], ?_⟩
        simp [logEvent, hlog]
  | none =>
    cases hr : t.resolveId with
    | some id => exact ⟨[Event.resolved id t.ctx], by simp [runTask, ht, hr, logEvent]⟩
    | none => exact ⟨[], by simp [runTask, ht, hr]⟩

lemma runTasks_log_ext (host : Host) (ts : List Task) :
    ∀ s, ∃ tail, (runTasks host ts s).log = s.log ++ tail := by
  induction ts with
  | nil => intro s; exact ⟨[], by simp [runTasks]⟩
  | cons t ts ih =>
    intro s
    obtain ⟨t1, h1⟩ := runTask_log_ext host t s
    obtain ⟨t2, h2⟩ := ih (runTask host t s)
    exact ⟨t1 ++ t2, by simp [runTasks, h2, h1]⟩

lemma flush_log_ext (host : Host) (s : SchedState) :
    ∃ tail, (flushCallbacks host s).log = s.log ++ tail := by
  rw [flushCallbacks_eq]
  exact runTasks_log_ext host s.callbacks _

lemma runOp_log_ext (host : Host) (o : Op) (s : SchedState) :
    ∃ tail, (runOp host o s).log = s.log ++ tail := by
  cases o with
  | tickOp cb ctx =>
    refine ⟨if s.pending then [] else [Event.trigger], ?_⟩
    simp [runOp, nextTick_fst]
  | flushOp => exact flush_log_ext host s

lemma runOps_log_ext (host : Host) (ops : List Op) :
    ∀ s, ∃ tail, (runOps host ops s).log = s.log ++ tail := by
  induction ops with
  | nil => intro s; exact ⟨[], by simp [runOps]⟩
  | cons o ops ih =>
    intro s
    obtain ⟨t1, h1⟩ := runOp_log_ext host o s
    obtain ⟨t2, h2⟩ := ih (runOp host o s)
    exact ⟨t1 ++ t2, by simp [runOps, h2, h1]⟩

/-! ### A synchronous turn of `nextTick` calls -/

lemma runTurn_labels (host : Host) (calls : List (Option Cb × Option Nat)) :
    ∀ s, labelsOf (runTurn host calls s).callbacks
      = labelsOf s.callbacks ++ turnLabels calls := by
  induction calls with
  | nil => intro s; simp [runTurn, turnLabels]
  | cons c rest ih =>
    intro s
    have happ : labelsOf (nextTick host c.1 c.2 s).1.callbacks
        = labelsOf s.callbacks ++ labelsOf [⟨c.1, c.2,
            if c.1.isNone && host.promiseDefined then some s.nextPromiseId else none⟩] := by
      rw [nextTick_fst, ← labelsOf_append]
    have hsing : ∀ r, labelsOf [(⟨c.1, c.2, r⟩ : Task)]
        = (c.1.map Cb.label).toList := by
      intro r; cases c1 : c.1 <;> simp [labelsOf, c1]
    have hturn : turnLabels (c :: rest)
        = (c.1.map Cb.label).toList ++ turnLabels rest := by
      cases c1 : c.1 <;> simp [turnLabels, c1]
    simp [runTurn, ih, happ, hsing, hturn]

lemma runTurn_invokes (host : Host) (calls : List (Option Cb × Option Nat)) :
    ∀ s, invokes (runTurn host calls s).log = invokes s.log := by
  induction calls with
  | nil => intro s; simp [runTurn]
  | cons c rest ih =>
    intro s
    have h : invokes (nextTick host c.1 c.2 s).1.log = invokes s.log := by
      rw [nextTick_fst]
      cases hp : s.pending <;> simp [invokes_append, invokes]
    simp [runTurn, ih, h]

lemma runTurn_pending_true (host : Host) (calls : List (Option Cb × Option Nat)) :
    ∀ s, s.pending = true →
      (runTurn host calls s).pending = true ∧
        countTrigger (runTurn host calls s).log = countTrigger s.log := by
  induction calls with
  | nil => intro s h; exact ⟨h, rfl⟩
  | cons c rest ih =>
    intro s h
    have h1 : (nextTick host c.1 c.2 s).1.pending = true := by
      rw [nextTick_fst]
    have h2 : countTrigger (nextTick host c.1 c.2 s).1.log = countTrigger s.log := by
      rw [nextTick_fst]
      simp [h, countTrigger_append, countTrigger]
    obtain ⟨ha, hb⟩ := ih (nextTick host c.1 c.2 s).1 h1
    exact ⟨by simpa [runTurn] using ha, by simp [runTurn]; rw [hb, h2]⟩

lemma runTurn_pending_false (host : Host) (calls : List (Option Cb × Option Nat))
    (s : SchedState) (h : s.pending = false) :
    countTrigger (runTurn host calls s).log
        = countTrigger s.log + (if calls.isEmpty then 0 else 1) ∧
      (runTurn host calls s).pending = !calls.isEmpty := by
  cases calls with
  | nil => simp [runTurn, h]
  | cons c rest =>
    have h1 : (nextTick host c.1 c.2 s).1.pending = true := by
      rw [nextTick_fst]
    have h2 : countTrigger (nextTick host c.1 c.2 s).1.log = countTrigger s.log + 1 := by
      rw [nextTick_fst]
      have htrig : countTrigger [Event.trigger] = 1 := rfl
      simp [h, countTrigger_append, htrig]
    obtain ⟨ha, hb⟩ := runTurn_pending_true host rest (nextTick host c.1 c.2 s).1 h1
    constructor
    · simp only [runTurn]
      rw [hb, h2]
      simp
    · simpa [runTurn] using ha

/-! ### The claims -/

/-- C1: all tasks enqueued by `nextTick` calls within one synchronous turn
(starting from a drained queue) are executed in that turn's single flush,
in exactly call order — the flush appends precisely the turn's callback
labels, in order, to the invocation trace — and everything the outside
world does afterwards (further `nextTick` calls and flushes) only appends
to the trace, so every later task runs after them. -/
theorem claim1_turn_tasks_run_in_call_order_in_one_flush (host : Host)
    (calls : List (Option Cb × Option Nat)) (s : SchedState) (ops : List Op)
    (h : s.callbacks = []) :
    invokes (flushCallbacks host (runTurn host calls s)).log
        = invokes s.log ++ turnLabels calls ∧
      ∃ tail, (runOps host ops (flushCallbacks host (runTurn host calls s))).log
        = (flushCallbacks host (runTurn host calls s)).log ++ tail := by
  constructor
  · rw [flush_invokes, runTurn_invokes, runTurn_labels, h]
    simp [labelsOf]
  · exact runOps_log_ext host ops _

/-- C1 witness: `schedule(fnA); schedule(fnB)` from the pristine state runs
`fnA` then `fnB` in the one flush, and a later turn's `fnD` only appends. -/
theorem claim1_witness :
    s0.callbacks = [] ∧
      (invokes (flushCallbacks hostP
            (runTurn hostP [(some fnA, none), (some fnB, none)] s0)).log
          = invokes s0.log ++ turnLabels [(some fnA, none), (some fnB, none)] ∧
        ∃ tail, (runOps hostP [Op.tickOp (some fnD) none, Op.flushOp]
            (flushCallbacks hostP
              (runTurn hostP [(some fnA, none), (some fnB, none)] s0))).log
          = (flushCallbacks hostP
              (runTurn hostP [(some fnA, none), (some fnB, none)] s0)).log ++ tail) :=
  ⟨rfl, claim1_turn_tasks_run_in_call_order_in_one_flush hostP
    [(some fnA, none), (some fnB, none)] s0
    [Op.tickOp (some fnD) none, Op.flushOp] rfl⟩

/-- C2: `flushCallbacks` lowers the pending flag and clears the live queue
before invoking anything — it equals running the snapshot of the old queue
from the state with `pending = false`, `callbacks = []` and an untouched
log — and the task loop invokes the snapshotted tasks one after another in
snapshot order, so the invocation trace grows by exactly the snapshot's
labels in order. -/
theorem claim2_flushCallbacks_step_order (host : Host) (s s' : SchedState)
    (t : Task) (ts : List Task) :
    flushCallbacks host s
        = runTasks host s.callbacks { s with pending := false, callbacks := [] } ∧
      runTasks host [] s' = s' ∧
      runTasks host (t :: ts) s' = runTasks host ts (runTask host t s') ∧
      invokes (flushCallbacks host s).log = invokes s.log ++ labelsOf s.callbacks :=
  ⟨rfl, rfl, rfl, flush_invokes host s⟩

/-- C3: a task enqueued during a flush is never invoked in that flush: the
flush invokes exactly the snapshot's labels; tasks enqueued meanwhile sit
in the (previously emptied) live queue and are invoked by the next flush;
and because the pending flag was reset before iterating, any such enqueue
raises the flag again and invokes the timer exactly once, starting a new
scheduling cycle. -/
theorem claim3_reentrant_tasks_deferred_to_next_flush (host : Host)
    (s : SchedState) :
    flushCallbacks host s
        = runTasks host s.callbacks { s with pending := false, callbacks := [] } ∧
      invokes (flushCallbacks host s).log = invokes s.log ++ labelsOf s.callbacks ∧
      invokes (flushCallbacks host (flushCallbacks host s)).log
        = invokes s.log ++ labelsOf s.callbacks
          ++ labelsOf (flushCallbacks host s).callbacks ∧
      (flushCallbacks host s).pending
        = !(flushCallbacks host s).callbacks.isEmpty ∧
      countTrigger (flushCallbacks host s).log
        = countTrigger s.log
          + (if (flushCallbacks host s).callbacks.isEmpty then 0 else 1) := by
  obtain ⟨h1, h2⟩ := flush_flushInv host s
  refine ⟨rfl, flush_invokes host s, ?_, h1, h2⟩
  rw [flush_invokes, flush_invokes]

/-- C4: a throwing callback is individually isolated: its flush entry adds
exactly one error report — the thrown error with the task's context value
and the origin tag `nextTick` — when its body throws, and none otherwise;
the loop still proceeds to the remaining tasks, all of which are invoked;
and the `nextTick` call itself raises no error towards its caller. -/
theorem claim4_error_isolation (host : Host) (t : Task) (c : Cb)
    (ts : List Task) (s : SchedState) (ctx2 : Option Nat) (h : t.cb = some c) :
    reports (runTask host t s).log
        = reports s.log ++
          (match bodyThrows c.body with
            | some e => [(e, t.ctx, "nextTick")]
            | none => []) ∧
      runTasks host (t :: ts) s = runTasks host ts (runTask host t s) ∧
      invokes (runTasks host (t :: ts) s).log = invokes s.log ++ labelsOf (t :: ts) ∧
      reports (nextTick host (some c) ctx2 s).1.log = reports s.log := by
  refine ⟨?_, rfl, runTasks_invokes host (t :: ts) s, ?_⟩
  · rw [runTask_reports]
    congr 1
    simp [taskReports, h]
  · rw [nextTick_fst]
    cases hp : s.pending <;> simp [reports_append, reports]

/-- C4 witness: a task running `fnThrow` (context 7) reports `(9, some 7,
"nextTick")` once and the following `fnB` task still runs. -/
theorem claim4_witness :
    (Task.mk (some fnThrow) (some 7) none).cb = some fnThrow ∧
      (reports (runTask hostP (Task.mk (some fnThrow) (some 7) none) s0).log
          = reports s0.log ++
            (match bodyThrows fnThrow.body with
              | some e => [(e, (Task.mk (some fnThrow) (some 7) none).ctx, "nextTick")]
              | none => []) ∧
        runTasks hostP (Task.mk (some fnThrow) (some 7) none
            :: [Task.mk (some fnB) none none]) s0
          = runTasks hostP [Task.mk (some fnB) none none]
              (runTask hostP (Task.mk (some fnThrow) (some 7) none) s0) ∧
        invokes (runTasks hostP (Task.mk (some fnThrow) (some 7) none
            :: [Task.mk (some fnB) none none]) s0).log
          = invokes s0.log ++ labelsOf (Task.mk (some fnThrow) (some 7) none
              :: [Task.mk (some fnB) none none]) ∧
        reports (nextTick hostP (some fnThrow) (some 7) s0).1.log = reports s0.log) :=
  ⟨rfl, claim4_error_isolation hostP (Task.mk (some fnThrow) (some 7) none) fnThrow
    [Task.mk (some fnB) none none] s0 (some 7) rfl⟩

/-- C5: per batch the timer is invoked exactly once: a turn of `nextTick`
calls starting with the flag down invokes the timer once iff the turn is
nonempty (and raises the flag), and any further calls made while the flag
is up invoke the timer zero more times and leave the flag up. -/
theorem claim5_single_trigger_per_batch (host : Host)
    (calls calls2 : List (Option Cb × Option Nat)) (s s2 : SchedState)
    (h : s.pending = false) (h2 : s2.pending = true) :
    countTrigger (runTurn host calls s).log
        = countTrigger s.log + (if calls.isEmpty then 0 else 1) ∧
      (runTurn host calls s).pending = !calls.isEmpty ∧
      countTrigger (runTurn host calls2 s2).log = countTrigger s2.log ∧
      (runTurn host calls2 s2).pending = true := by
  obtain ⟨a, b⟩ := runTurn_pending_false host calls s h
  obtain ⟨c', d⟩ := runTurn_pending_true host calls2 s2 h2
  exact ⟨a, b, d, c'⟩

/-- C5 witness: scheduling `fnA` then `fnB` from the pristine state invokes
the timer exactly once; two more calls with the flag up add none. -/
theorem claim5_witness :
    s0.pending = false ∧
      (runTurn hostP [(some fnA, none)] s0).pending = true ∧
      (countTrigger (runTurn hostP [(some fnA, none), (some fnB, none)] s0).log
          = countTrigger s0.log
            + (if ([(some fnA, none), (some fnB, none)]
            : List (Option Cb × Option Nat)).isEmpty then 0 else 1) ∧
        (runTurn hostP [(some fnA, none), (some fnB, none)] s0).pending
          = !([(some fnA, none), (some fnB, none)]
            : List (Option Cb × Option Nat)).isEmpty ∧
        countTrigger (runTurn hostP [(some fnD, none)]
            (runTurn hostP [(some fnA, none)] s0)).log
          = countTrigger (runTurn hostP [(some fnA, none)] s0).log ∧
        (runTurn hostP [(some fnD, none)]
            (runTurn hostP [(some fnA, none)] s0)).pending = true) :=
  ⟨rfl, by decide,
    claim5_single_trigger_per_batch hostP
      [(some fnA, none), (some fnB, none)] [(some fnD, none)]
      s0 (runTurn hostP [(some fnA, none)] s0) rfl (by decide)⟩

/-- C6: when the host has a `Promise`, `nextTick()` with no callback
returns a fresh promise; that promise is not resolved by the call itself,
and the flush of the batch (here: the batch consisting of this task,
enqueued onto a drained queue) resolves exactly it, with the supplied
context value (`none` models `undefined`), at the moment the flush reaches
the task. -/
theorem claim6_promise_mode_resolution (host : Host) (ctx : Option Nat)
    (s : SchedState) (hp : host.promiseDefined = true) (hq : s.callbacks = []) :
    (nextTick host none ctx s).2 = some s.nextPromiseId ∧
      resolutions (nextTick host none ctx s).1.log = resolutions s.log ∧
      (flushCallbacks host (nextTick host none ctx s).1).log
        = (nextTick host none ctx s).1.log
          ++ [Event.resolved s.nextPromiseId ctx] := by
  refine ⟨?_, ?_, ?_⟩
  · rw [nextTick_snd]
    simp [hp]
  · rw [nextTick_fst]
    cases hpd : s.pending <;> simp [resolutions_append, resolutions]
  · rw [flushCallbacks_eq]
    have hcb : (nextTick host none ctx s).1.callbacks
        = [⟨none, ctx, some s.nextPromiseId⟩] := by
      rw [nextTick_fst]
      simp [hq, hp]
    rw [hcb]
    simp [runTasks, runTask, logEvent]

/-- C6 witness: `nextTick()` with context 42 on the pristine state returns
promise 0, unresolved until the flush, which resolves it with 42. -/
theorem claim6_witness :
    hostP.promiseDefined = true ∧ s0.callbacks = [] ∧
      ((nextTick hostP none (some 42) s0).2 = some s0.nextPromiseId ∧
        resolutions (nextTick hostP none (some 42) s0).1.log = resolutions s0.log ∧
        (flushCallbacks hostP (nextTick hostP none (some 42) s0).1).log
          = (nextTick hostP none (some 42) s0).1.log
            ++ [Event.resolved s0.nextPromiseId (some 42)]) :=
  ⟨rfl, rfl, claim6_promise_mode_resolution hostP (some 42) s0 rfl rfl⟩

/-- C7 counterexample: with no `Promise` primitive, `nextTick()` with no
callback still appends a task to the live queue (here turning the empty
queue nonempty), refuting the claim that the no-op enqueue is avoided and
nothing is appended. -/
theorem claim7_counterexample :
    (nextTick hostNoP none none s0).1.callbacks ≠ [] ∧
      (nextTick hostNoP none none s0).2 = none := by
  decide

/-- C7 amended: when the host provides no `Promise` primitive, `nextTick`
with no callback returns nothing (`undefined`), but the enqueue is NOT
avoided — a task with neither callback nor resolver is still appended to
the queue — and that task is a no-op when the flush runs it: it changes
nothing (no invocation, no resolution, no report, no state change). -/
theorem claim7_no_promise_amended (host : Host) (ctx : Option Nat)
    (s s' : SchedState) (h : host.promiseDefined = false) :
    (nextTick host none ctx s).2 = none ∧
      (nextTick host none ctx s).1.callbacks = s.callbacks ++ [⟨none, ctx, none⟩] ∧
      runTask host ⟨none, ctx, none⟩ s' = s' := by
  refine ⟨?_, ?_, rfl⟩
  · rw [nextTick_snd]
    simp [h]
  · rw [nextTick_fst]
    simp [h]

/-- C7 witness: on the `Promise`-less host, `nextTick()` with context 3
returns nothing, appends the no-op task, and running that task is the
identity. -/
theorem claim7_witness :
    hostNoP.promiseDefined = false ∧
      ((nextTick hostNoP none (some 3) s0).2 = none ∧
        (nextTick hostNoP none (some 3) s0).1.callbacks
          = s0.callbacks ++ [⟨none, some 3, none⟩] ∧
        runTask hostNoP ⟨none, some 3, none⟩ s0 = s0) :=
  ⟨rfl, claim7_no_promise_amended hostNoP (some 3) s0 s0 rfl⟩

/-- C8: `timerFunc` is chosen by the first available option in the fixed
order — native `Promise`; else `MutationObserver` when not on IE and it is
native or the known PhantomJS/iOS-7 constructor stub; else native
`setImmediate`; else `setTimeout`, which is passed delay 0 — and the
selection is total (the `setTimeout` fallback needs no availability
condition, so selection never fails). -/
theorem claim8_timer_strategy_selection (env : Env) :
    (timerFunc env = .promiseTimer
        ↔ (env.promiseDefined && env.promiseNative) = true) ∧
      (timerFunc env = .mutationObserverTimer
        ↔ ((env.promiseDefined && env.promiseNative) = false ∧
            (!env.isIE && env.mutationObserverDefined
              && (env.mutationObserverNative || env.mutationObserverStub)) = true)) ∧
      (timerFunc env = .setImmediateTimer
        ↔ ((env.promiseDefined && env.promiseNative) = false ∧
            (!env.isIE && env.mutationObserverDefined
              && (env.mutationObserverNative || env.mutationObserverStub)) = false ∧
            (env.setImmediateDefined && env.setImmediateNative) = true)) ∧
      (timerFunc env = .setTimeoutTimer
        ↔ ((env.promiseDefined && env.promiseNative) = false ∧
            (!env.isIE && env.mutationObserverDefined
              && (env.mutationObserverNative || env.mutationObserverStub)) = false ∧
            (env.setImmediateDefined && env.setImmediateNative) = false)) ∧
      timerDelay (timerFunc env)
        = (if timerFunc env = .setTimeoutTimer then some 0 else none) := by
  rcases Bool.eq_false_or_eq_true (env.promiseDefined && env.promiseNative) with h1 | h1 <;>
    rcases Bool.eq_false_or_eq_true (!env.isIE && env.mutationObserverDefined
      && (env.mutationObserverNative || env.mutationObserverStub)) with h2 | h2 <;>
    rcases Bool.eq_false_or_eq_true
      (env.setImmediateDefined && env.setImmediateNative) with h3 | h3 <;>
    simp [timerFunc, initTimer, timerDelay, h1, h2, h3]

/-- C9: the published `isUsingMicroTask` flag is true exactly when the
chosen strategy is microtask-granular, i.e. the `Promise` or the
`MutationObserver` strategy; it stays false for `setImmediate` and
`setTimeout`. -/
theorem claim9_isUsingMicroTask_iff_microtask_strategy (env : Env) :
    isUsingMicroTask env = true
      ↔ (timerFunc env = .promiseTimer ∨ timerFunc env = .mutationObserverTimer) := by
  rcases Bool.eq_false_or_eq_true (env.promiseDefined && env.promiseNative) with h1 | h1 <;>
    rcases Bool.eq_false_or_eq_true (!env.isIE && env.mutationObserverDefined
      && (env.mutationObserverNative || env.mutationObserverStub)) with h2 | h2 <;>
    rcases Bool.eq_false_or_eq_true
      (env.setImmediateDefined && env.setImmediateNative) with h3 | h3 <;>
    simp [isUsingMicroTask, timerFunc, initTimer, h1, h2, h3]

/-- C10: right after `flushCallbacks` takes its snapshot and before any
snapshotted task runs, the live queue is empty and the pending flag is
false (first conjunct exhibits that intermediate state, with the log still
untouched); and flushing an empty queue does nothing but reset the pending
flag to false. -/
theorem claim10_flush_midstate_and_empty_flush (host : Host) (s : SchedState) :
    flushCallbacks host s
        = runTasks host s.callbacks { s with pending := false, callbacks := [] } ∧
      flushCallbacks host { s with callbacks := [] }
        = { s with callbacks := [], pending := false } :=
  ⟨rfl, rfl⟩

end NextTick
